import Mathlib

/-!
A verification development for the todo-task tool-invocation bridge.

The embedding covers:
* the task data model and the `add_task` operation (src/backend/tools/server.py);
* the remaining four task operations, which the bridge imports from
  `tools.server` but whose definitions are not part of the sources here
  (they are modelled from the specification, as marked in their doc
  comments);
* the user-id binding layer of `create_task_agent`
  (src/backend/services/agent.py, mounted mode);
* the connection-singleton manager `get_mcp_server`
  (src/backend/services/agent.py), both as a sequential function with a
  fallible constructor and as an interleaving transition system for
  concurrent first acquisition;
* the bridge entry points `process_message` and
  `process_message_streaming` (src/backend/services/agent.py), with the
  reasoning capability abstracted as a fallible oracle.

Machine strings are Lean `String`s; Python `len` is `String.length`
(character count); Python `str.strip` is embedded structurally as `strip`
so that it evaluates in the kernel; task ids (UUIDs in the source) are
`Nat`; timestamps are `Nat`.  Python exceptions are `Except String`
values whose payload is the text `str(e)`.
-/

namespace TaskApp

/-- Python `str.strip()`: remove leading and trailing whitespace. -/
def strip (s : String) : String :=
  String.mk (((s.data.dropWhile Char.isWhitespace).reverse.dropWhile
      Char.isWhitespace).reverse)

/-- A persisted task row (src/backend: the Task model as used by the
task operations): id, owning user, title, optional description,
completion flag, creation timestamp. -/
structure Task where
  id : Nat
  user_id : String
  title : String
  description : Option String
  completed : Bool
  created_at : Nat
deriving DecidableEq, Repr

/-- The view of a task returned in a success envelope by the task
operations (the `data` dict in src/backend/tools/server.py). -/
structure TaskView where
  task_id : Nat
  title : String
  description : Option String
  completed : Bool
  created_at : Nat
deriving DecidableEq, Repr

/-- The `data` payload built from a task row in
src/backend/tools/server.py. -/
def Task.view (t : Task) : TaskView :=
  ⟨t.id, t.title, t.description, t.completed, t.created_at⟩

/-- The uniform result envelope of every task operation:
`{"status": "success", "data": ...}` or `{"status": "error", "error": msg}`. -/
inductive Envelope (α : Type) where
  | success (data : α)
  | error (msg : String)
deriving DecidableEq, Repr

/-- `add_task` from src/backend/tools/server.py, lines 37-130: validate
title, description and user_id in that order, returning an error
envelope without touching the store on any violation; otherwise persist
one new task (with the trimmed title) and return its view.  The
generated id and creation timestamp are passed in as `fresh` and `now`;
the session/store is the explicit task list. -/
def add_task (user_id title : String) (description : Option String)
    (fresh now : Nat) (store : List Task) : Envelope TaskView × List Task :=
  if title = "" ∨ (strip title).length = 0 then
    (.error "Title must be between 1 and 200 characters", store)
  else if 200 < title.length then
    (.error "Title must be between 1 and 200 characters", store)
  else if description.getD "" ≠ "" ∧ 1000 < (description.getD "").length then
    (.error "Description must be 1000 characters or less", store)
  else if user_id = "" ∨ 255 < user_id.length then
    (.error "User ID must be between 1 and 255 characters", store)
  else
    let t : Task := ⟨fresh, user_id, strip title, description, false, now⟩
    (.success t.view, store ++ [t])

theorem strip_empty : strip "" = "" := rfl

theorem strip_length_zero_iff (s : String) : (strip s).length = 0 ↔ strip s = "" := by
  constructor
  · intro h
    have : (strip s).data = [] := List.length_eq_zero.mp h
    cases hs : strip s
    rw [hs] at this
    simpa [this] using congrArg String.mk this
  · intro h; rw [h]; rfl

/-- C2: any input with an empty or whitespace-only or over-long title,
an over-long description, or an empty or over-long user id makes
`add_task` return an error envelope and leave the task store unchanged. -/
theorem add_task_invalid_input_rejected
    (user_id title : String) (description : Option String)
    (fresh now : Nat) (store : List Task)
    (h : strip title = "" ∨ 200 < title.length ∨
         (∃ d, description = some d ∧ 1000 < d.length) ∨
         user_id = "" ∨ 255 < user_id.length) :
    (∃ msg, (add_task user_id title description fresh now store).fst =
        .error msg) ∧
    (add_task user_id title description fresh now store).snd = store := by
  unfold add_task
  by_cases h1 : title = "" ∨ (strip title).length = 0
  · rw [if_pos h1]; exact ⟨⟨_, rfl⟩, rfl⟩
  · rw [if_neg h1]
    by_cases h2 : 200 < title.length
    · rw [if_pos h2]; exact ⟨⟨_, rfl⟩, rfl⟩
    · rw [if_neg h2]
      by_cases h3 : description.getD "" ≠ "" ∧ 1000 < (description.getD "").length
      · rw [if_pos h3]; exact ⟨⟨_, rfl⟩, rfl⟩
      · rw [if_neg h3]
        by_cases h4 : user_id = "" ∨ 255 < user_id.length
        · rw [if_pos h4]; exact ⟨⟨_, rfl⟩, rfl⟩
        · exfalso
          push_neg at h1
          rcases h with h | h | ⟨d, hd, hdl⟩ | h | h
          · exact h1.2 ((strip_length_zero_iff title).mpr h)
          · exact h2 h
          · exact h3 ⟨by simp [hd]; intro hde; rw [hde] at hdl; simp at hdl,
              by simpa [hd] using hdl⟩
          · exact h4 (Or.inl h)
          · exact h4 (Or.inr h)

/-- Witness for C2: an empty title is rejected and the store is left
unchanged. -/
theorem add_task_invalid_input_rejected_witness :
    (∃ msg, (add_task "u1" "" none 0 0 []).fst = .error msg) ∧
    (add_task "u1" "" none 0 0 []).snd = [] :=
  add_task_invalid_input_rejected "u1" "" none 0 0 [] (Or.inl rfl)

/-- C3: on every valid input, `add_task` succeeds, the returned view
carries the new id and timestamp, the trimmed title, the input
description, and a false completed flag, and the store is extended by
exactly the one new task owned by `user_id`. -/
theorem add_task_valid_input_creates
    (user_id title : String) (description : Option String)
    (fresh now : Nat) (store : List Task)
    (ht : strip title ≠ "") (ht2 : title.length ≤ 200)
    (hd : ∀ d, description = some d → d.length ≤ 1000)
    (hu : user_id ≠ "") (hu2 : user_id.length ≤ 255) :
    add_task user_id title description fresh now store =
      (.success ⟨fresh, strip title, description, false, now⟩,
       store ++ [⟨fresh, user_id, strip title, description, false, now⟩]) ∧
    (add_task user_id title description fresh now store).snd.length =
      store.length + 1 := by
  have h1 : ¬ (title = "" ∨ (strip title).length = 0) := by
    push_neg
    constructor
    · intro he; exact ht (by rw [he]; rfl)
    · intro hl; exact ht ((strip_length_zero_iff title).mp hl)
  have h3 : ¬ (description.getD "" ≠ "" ∧ 1000 < (description.getD "").length) := by
    rintro ⟨hne, hlen⟩
    cases hdc : description with
    | none => rw [hdc] at hne; exact hne rfl
    | some d =>
        rw [hdc] at hlen
        exact absurd (hd d hdc) (by simpa using hlen)
  have h2 : ¬ (200 < title.length) := not_lt.mpr ht2
  have h4 : ¬ (user_id = "" ∨ 255 < user_id.length) := by
    push_neg; exact ⟨hu, hu2⟩
  constructor
  · unfold add_task
    rw [if_neg h1, if_neg h2, if_neg h3, if_neg h4]
    rfl
  · unfold add_task
    rw [if_neg h1, if_neg h2, if_neg h3, if_neg h4]
    simp

/-- Witness for C3: a concrete valid creation, with the title trimmed in
the result and one new row appended. -/
theorem add_task_valid_input_creates_witness :
    add_task "u1" "  buy milk  " (some "d") 5 7 [] =
      (.success ⟨5, "buy milk", some "d", false, 7⟩,
       [⟨5, "u1", "buy milk", some "d", false, 7⟩]) ∧
    (add_task "u1" "  buy milk  " (some "d") 5 7 []).snd.length = 0 + 1 := by
  have h := add_task_valid_input_creates "u1" "  buy milk  " (some "d") 5 7 []
    (by decide) (by decide)
    (by intro d hd; cases hd; decide) (by decide) (by decide)
  have hs : strip "  buy milk  " = "buy milk" := by decide
  rw [hs] at h
  exact h

/-- The ownership-scoped lookup predicate shared by the mutating task
operations: the task with this id that is owned by this user. -/
def ownedBy (user_id : String) (task_id : Nat) (t : Task) : Bool :=
  t.id == task_id && t.user_id == user_id

/-- The store rewrite performed by a successful completion: set the
completed flag on the owned task with the given id. -/
def completeOwned (user_id : String) (task_id : Nat) (u : Task) : Task :=
  if ownedBy user_id task_id u then { u with completed := true } else u

/-- Modelled from the spec: `complete_task` is imported from
`tools.server` by src/backend/services/agent.py but its definition is
not among the sources; section 4.1 specifies that it fails NotFound if
no task with that id is owned by user_id, and otherwise sets
completed=true and returns the updated view, idempotently. -/
def complete_task (user_id : String) (task_id : Nat) (store : List Task) :
    Envelope TaskView × List Task :=
  match store.find? (ownedBy user_id task_id) with
  | none => (.error "Task not found", store)
  | some t =>
      (.success (Task.view { t with completed := true }),
       store.map (completeOwned user_id task_id))

/-- Modelled from the spec: the status filter of `list_tasks`,
`status_filter ∈ {all, pending, completed}`, matching a task by its
completion state. -/
def statusMatches (status : String) (t : Task) : Bool :=
  if status == "pending" then !t.completed
  else if status == "completed" then t.completed
  else true

/-- Modelled from the spec: `list_tasks` is imported from `tools.server`
by src/backend/services/agent.py but its definition is not among the
sources; section 4.1 specifies that it returns only tasks owned by
user_id, filtered by completion state. -/
def list_tasks (user_id status : String) (store : List Task) :
    Envelope (List TaskView) :=
  .success ((store.filter
    (fun t => t.user_id == user_id && statusMatches status t)).map Task.view)

/-- A supplied title that violates the length validations of create. -/
def titleInvalid (title : Option String) : Bool :=
  match title with
  | some s => strip s == "" || decide (200 < s.length)
  | none => false

/-- A supplied description that violates the length validations of
create. -/
def descriptionInvalid (description : Option String) : Bool :=
  match description with
  | some d => decide (1000 < d.length)
  | none => false

/-- Modelled from the spec: `update_task` is imported from
`tools.server` by src/backend/services/agent.py but its definition is
not among the sources; section 4.1 specifies NotFound when the task is
absent or not owned by the user, that at least one field must be
supplied, and the same length validations as create on any supplied
field. -/
def update_task (user_id : String) (task_id : Nat)
    (title description : Option String) (store : List Task) :
    Envelope TaskView × List Task :=
  match store.find? (ownedBy user_id task_id) with
  | none => (.error "Task not found", store)
  | some t =>
      if title = none ∧ description = none then
        (.error "At least one field must be provided", store)
      else if titleInvalid title then
        (.error "Title must be between 1 and 200 characters", store)
      else if descriptionInvalid description then
        (.error "Description must be 1000 characters or less", store)
      else
        let t' : Task := { t with
          title := (title.map strip).getD t.title,
          description := description.or t.description }
        (.success t'.view,
         store.map (fun u => if ownedBy user_id task_id u then t' else u))

/-- Modelled from the spec: `delete_task` is imported from
`tools.server` by src/backend/services/agent.py but its definition is
not among the sources; section 4.1 specifies NotFound under the same
ownership rule, and otherwise removal of the task plus a confirmation
carrying the deleted id. -/
def delete_task (user_id : String) (task_id : Nat) (store : List Task) :
    Envelope Nat × List Task :=
  match store.find? (ownedBy user_id task_id) with
  | none => (.error "Task not found", store)
  | some _ =>
      (.success task_id, store.filter (fun u => !ownedBy user_id task_id u))

theorem ownedBy_completed_update (user_id : String) (task_id : Nat) (u : Task) :
    ownedBy user_id task_id { u with completed := true } =
      ownedBy user_id task_id u := rfl

theorem find?_exists_of_owned {user_id : String} {task_id : Nat}
    {store : List Task}
    (h : ∃ t, t ∈ store ∧ t.id = task_id ∧ t.user_id = user_id) :
    ∃ t, store.find? (ownedBy user_id task_id) = some t := by
  obtain ⟨t, hmem, hid, huid⟩ := h
  have : (store.find? (ownedBy user_id task_id)).isSome = true := by
    rw [List.find?_isSome]
    exact ⟨t, hmem, by simp [ownedBy, hid, huid]⟩
  exact Option.isSome_iff_exists.mp this

theorem ownedBy_completeOwned (user_id : String) (task_id : Nat) (u : Task) :
    ownedBy user_id task_id (completeOwned user_id task_id u) =
      ownedBy user_id task_id u := by
  unfold completeOwned
  by_cases hu : ownedBy user_id task_id u = true
  · rw [if_pos hu]; exact (ownedBy_completed_update user_id task_id u).trans hu |>.trans hu.symm
  · rw [if_neg hu]

theorem completeOwned_idem (user_id : String) (task_id : Nat) (u : Task) :
    completeOwned user_id task_id (completeOwned user_id task_id u) =
      completeOwned user_id task_id u := by
  by_cases hu : ownedBy user_id task_id u = true
  · have h1 : completeOwned user_id task_id u = { u with completed := true } := by
      unfold completeOwned; rw [if_pos hu]
    rw [h1]
    unfold completeOwned
    rw [if_pos ((ownedBy_completed_update user_id task_id u).trans hu)]
  · have h1 : completeOwned user_id task_id u = u := by
      unfold completeOwned; rw [if_neg hu]
    rw [h1, h1]

/-- C5: `complete_task` is idempotent.  If a task with the given id is
owned by the user, the first call succeeds with a view whose completed
flag is true, and a second call on the resulting store succeeds again
with the same view and leaves the store unchanged. -/
theorem complete_task_idempotent (user_id : String) (task_id : Nat)
    (store : List Task)
    (h : ∃ t, t ∈ store ∧ t.id = task_id ∧ t.user_id = user_id) :
    ∃ v, (complete_task user_id task_id store).fst = .success v ∧
      v.completed = true ∧
      complete_task user_id task_id (complete_task user_id task_id store).snd
        = (.success v, (complete_task user_id task_id store).snd) := by
  obtain ⟨t0, hfind⟩ := find?_exists_of_owned h
  have hp : ownedBy user_id task_id t0 = true := List.find?_some hfind
  have hstep : complete_task user_id task_id store =
      (.success (Task.view { t0 with completed := true }),
       store.map (completeOwned user_id task_id)) := by
    unfold complete_task
    rw [hfind]
  have hfind2 : (store.map (completeOwned user_id task_id)).find?
      (ownedBy user_id task_id) = some (completeOwned user_id task_id t0) := by
    rw [List.find?_map]
    have hco : (ownedBy user_id task_id ∘ completeOwned user_id task_id) =
        ownedBy user_id task_id := by
      funext u; exact ownedBy_completeOwned user_id task_id u
    rw [hco, hfind]
    rfl
  have hft0 : completeOwned user_id task_id t0 = { t0 with completed := true } := by
    unfold completeOwned; rw [if_pos hp]
  have hsnd : (complete_task user_id task_id store).snd =
      store.map (completeOwned user_id task_id) := by rw [hstep]
  have hmapmap : (store.map (completeOwned user_id task_id)).map
      (completeOwned user_id task_id) = store.map (completeOwned user_id task_id) := by
    rw [List.map_map]
    exact List.map_congr_left (fun u _ => completeOwned_idem user_id task_id u)
  refine ⟨Task.view { t0 with completed := true }, by rw [hstep], rfl, ?_⟩
  rw [hsnd]
  have hsecond : complete_task user_id task_id
      (store.map (completeOwned user_id task_id)) =
      (.success (Task.view { (completeOwned user_id task_id t0) with
          completed := true }),
       (store.map (completeOwned user_id task_id)).map
         (completeOwned user_id task_id)) := by
    unfold complete_task
    rw [hfind2]
  rw [hsecond, hft0, hmapmap]

/-- Witness for C5: completing a concrete singleton store twice. -/
theorem complete_task_idempotent_witness :
    complete_task "u1" 1 ((complete_task "u1" 1
        [⟨1, "u1", "t", none, false, 0⟩]).snd)
      = (.success ⟨1, "t", none, true, 0⟩,
         (complete_task "u1" 1 [⟨1, "u1", "t", none, false, 0⟩]).snd) := by
  obtain ⟨v, h1, _, h3⟩ := complete_task_idempotent "u1" 1
    [⟨1, "u1", "t", none, false, 0⟩]
    ⟨⟨1, "u1", "t", none, false, 0⟩, by decide, rfl, rfl⟩
  have hv : Envelope.success v = Envelope.success
      (⟨1, "t", none, true, 0⟩ : TaskView) := by
    rw [← h1]; decide
  cases hv
  exact h3

/-- C6: ownership scoping.  `list_tasks` only ever returns views of
tasks owned by the supplied user; and when no task with the given id is
owned by the user (whether the id belongs to another user or to no task
at all), `complete_task`, `update_task` and `delete_task` all return the
same NotFound error envelope and leave the store unchanged, so a
cross-user lookup is indistinguishable from a nonexistent id. -/
theorem ownership_scoping (user_id status : String) (task_id : Nat)
    (title description : Option String) (store : List Task) :
    (∀ views, list_tasks user_id status store = .success views →
      ∀ v ∈ views, ∃ t, t ∈ store ∧ t.user_id = user_id ∧ Task.view t = v) ∧
    ((∀ t, t ∈ store → t.id = task_id → t.user_id ≠ user_id) →
      complete_task user_id task_id store = (.error "Task not found", store) ∧
      update_task user_id task_id title description store =
        (.error "Task not found", store) ∧
      delete_task user_id task_id store = (.error "Task not found", store)) := by
  have hnone : ∀ (h : ∀ t, t ∈ store → t.id = task_id → t.user_id ≠ user_id),
      store.find? (ownedBy user_id task_id) = none := by
    intro h
    rw [List.find?_eq_none]
    intro t hmem
    simp only [ownedBy, Bool.and_eq_true, beq_iff_eq, not_and]
    intro hid
    exact h t hmem hid
  constructor
  · intro views hviews v hv
    have : views = (store.filter
        (fun t => t.user_id == user_id && statusMatches status t)).map Task.view := by
      have := hviews
      unfold list_tasks at this
      cases this
      rfl
    rw [this] at hv
    obtain ⟨t, htf, htv⟩ := List.mem_map.mp hv
    have := List.mem_filter.mp htf
    refine ⟨t, this.1, ?_, htv⟩
    have := this.2
    simp only [Bool.and_eq_true, beq_iff_eq] at this
    exact this.1
  · intro h
    have hn := hnone h
    refine ⟨?_, ?_, ?_⟩
    · unfold complete_task; rw [hn]
    · unfold update_task; rw [hn]
    · unfold delete_task; rw [hn]

/-- Witness for C6: with a store owned entirely by another user, all
three mutating operations answer NotFound and change nothing. -/
theorem ownership_scoping_witness :
    complete_task "u1" 1 [⟨1, "u2", "t", none, false, 0⟩] =
      (.error "Task not found", [⟨1, "u2", "t", none, false, 0⟩]) ∧
    update_task "u1" 1 (some "new") none [⟨1, "u2", "t", none, false, 0⟩] =
      (.error "Task not found", [⟨1, "u2", "t", none, false, 0⟩]) ∧
    delete_task "u1" 1 [⟨1, "u2", "t", none, false, 0⟩] =
      (.error "Task not found", [⟨1, "u2", "t", none, false, 0⟩]) :=
  (ownership_scoping "u1" "all" 1 (some "new") none
    [⟨1, "u2", "t", none, false, 0⟩]).2 (by decide)

/-- The sequential view of `get_mcp_server`
(src/backend/services/agent.py, lines 33-63) for a single caller inside
the lock: if the stored singleton is already set, it is returned; if it
is unset, the constructor runs.  The constructor call
`MCPServerStreamableHttp(...)` is not wrapped in any try/except, so a
constructor exception aborts the function before the module-global
assignment: the result is the propagated error and the stored handle
stays unset.  `construct` is the constructor outcome, `cur` the stored
module-global handle; the function returns the call outcome paired with
the new stored handle. -/
def get_mcp_server_once (construct : Except String Nat) (cur : Option Nat) :
    Except String Nat × Option Nat :=
  match cur with
  | some h => (.ok h, some h)
  | none =>
      match construct with
      | .error e => (.error e, none)
      | .ok h => (.ok h, some h)

/-- C8: if construction of the connection singleton fails, the error is
surfaced to the caller (not swallowed) and the stored handle remains
unset, so a later call with a working constructor re-attempts and
succeeds. -/
theorem construction_failure_surfaced (e : String) (h : Nat) :
    get_mcp_server_once (.error e) none = (.error e, none) ∧
    get_mcp_server_once (.ok h) none = (.ok h, some h) :=
  ⟨rfl, rfl⟩

/-- The five task operations as seen by the binding layer of
`create_task_agent` (src/backend/services/agent.py, lines 103-179): each
takes the acting user id first; `α` abstracts the result envelope type
and task ids are the UUID strings the closures pass through. -/
structure TaskOps (α : Type) where
  add_task : String → String → Option String → α
  list_tasks : String → String → α
  complete_task : String → String → α
  update_task : String → String → Option String → Option String → α
  delete_task : String → String → α

/-- The five user-bound tool closures produced in mounted mode. -/
structure BoundTools (α : Type) where
  add_task_tool : String → Option String → α
  list_tasks_tool : String → α
  complete_task_tool : String → α
  update_task_tool : String → Option String → Option String → α
  delete_task_tool : String → α

/-- The binding step of `create_task_agent`
(src/backend/services/agent.py, lines 109-170, mounted mode): five
closures that pre-fill `user_id` and forward all remaining arguments
unchanged to the corresponding task operation. -/
def create_task_agent_tools {α : Type} (ops : TaskOps α) (user_id : String) :
    BoundTools α where
  add_task_tool := fun title description => ops.add_task user_id title description
  list_tasks_tool := fun status => ops.list_tasks user_id status
  complete_task_tool := fun task_id => ops.complete_task user_id task_id
  update_task_tool := fun task_id title description =>
    ops.update_task user_id task_id title description
  delete_task_tool := fun task_id => ops.delete_task user_id task_id

/-- C9: the binding layer is pure wiring.  For every user id and every
argument tuple, each of the five bound tools is extensionally equal to
the underlying operation applied to the user id and those arguments, for
any implementation of the operations — so binding changes neither
validation nor error behavior. -/
theorem binding_is_pure_wiring {α : Type} (ops : TaskOps α)
    (user_id title status task_id : String) (description ut ud : Option String) :
    (create_task_agent_tools ops user_id).add_task_tool title description =
      ops.add_task user_id title description ∧
    (create_task_agent_tools ops user_id).list_tasks_tool status =
      ops.list_tasks user_id status ∧
    (create_task_agent_tools ops user_id).complete_task_tool task_id =
      ops.complete_task user_id task_id ∧
    (create_task_agent_tools ops user_id).update_task_tool task_id ut ud =
      ops.update_task user_id task_id ut ud ∧
    (create_task_agent_tools ops user_id).delete_task_tool task_id =
      ops.delete_task user_id task_id :=
  ⟨rfl, rfl, rfl, rfl, rfl⟩

/-- One record of the tool-call log extracted by `process_message`. -/
structure ToolCallRec where
  tool : String
  parameters : String
  result : Option String
deriving DecidableEq, Repr

/-- What `Runner.run` hands back to the bridge on success: the final
text plus the tool calls made. -/
structure RunOutcome where
  final_output : String
  tool_calls : List ToolCallRec
deriving DecidableEq, Repr

/-- The structured result of `process_message`
(src/backend/services/agent.py, lines 195-283). -/
structure ProcessResult where
  response : String
  tool_calls : List ToolCallRec
  model : String
  tokens_used : Nat
  error : Option String
deriving DecidableEq, Repr

/-- The fixed user-facing apology text of the degraded result
(src/backend/services/agent.py, line 278). -/
def apologyText : String :=
  "I\x27m sorry, I encountered an error processing your request. Please try again."

/-- `process_message` from src/backend/services/agent.py, lines 195-283.
Steps 2-4 of the bridge (building the agent binding, running the
reasoning capability, extracting tool calls) all sit inside one
try/except, so they are modelled as one fallible pipeline: `createAgent`
is the outcome of `create_task_agent`, `runner` the outcome of
`Runner.run` plus extraction on the assembled message list (prior turns
in order, then the new user message).  Any fault is caught and converted
into the degraded result carrying the apology text, an empty tool-call
log, and the fault text `str(e)` in the error field; on success the
error field is absent. -/
def process_message (model user_id message : String)
    (conversation_history : List (String × String))
    (createAgent : String → Except String Unit)
    (runner : List (String × String) → Except String RunOutcome) :
    ProcessResult :=
  match createAgent user_id,
        runner (conversation_history ++ [("user", message)]) with
  | .error e, _ =>
      { response := apologyText, tool_calls := [],
        model := model, tokens_used := 0, error := some e }
  | .ok _, .error e =>
      { response := apologyText, tool_calls := [],
        model := model, tokens_used := 0, error := some e }
  | .ok _, .ok r =>
      { response := r.final_output, tool_calls := r.tool_calls,
        model := model, tokens_used := 0, error := none }

/-- Counterexample for C1: a fault whose message text is empty (as for a
Python exception with an empty `str(e)`) is caught, but the error field
it leaves behind is the empty string, so the error field is not a
non-empty message. -/
theorem process_message_error_field_can_be_empty :
    (process_message "gpt-4o" "u1" "hi" [] (fun _ => .error "")
        (fun _ => .ok ⟨"ok", []⟩)).error = some "" ∧
    ¬ ∃ e, (process_message "gpt-4o" "u1" "hi" [] (fun _ => .error "")
        (fun _ => .ok ⟨"ok", []⟩)).error = some e ∧ e ≠ "" := by
  refine ⟨rfl, ?_⟩
  rintro ⟨e, he, hne⟩
  have : some "" = some e := by rw [← he]; rfl
  cases this
  exact hne rfl

/-- C1 (amended): `process_message` never propagates a fault: it is a
total function into structured results, and under any fault in building
the binding, running the reasoning capability, or extracting results, it
returns the fixed apology text, an empty tool-call list, and the fault
message attached in the error field (hence a non-empty error field
whenever the fault carries a non-empty message). -/
theorem process_message_degrades_on_fault (model user_id message : String)
    (conversation_history : List (String × String))
    (createAgent : String → Except String Unit)
    (runner : List (String × String) → Except String RunOutcome) (e : String)
    (h : createAgent user_id = .error e ∨
         (createAgent user_id = .ok () ∧
          runner (conversation_history ++ [("user", message)]) = .error e)) :
    process_message model user_id message conversation_history createAgent
        runner =
      { response := apologyText, tool_calls := [], model := model,
        tokens_used := 0, error := some e } := by
  unfold process_message
  rcases h with h | ⟨h1, h2⟩
  · rw [h]
  · rw [h1, h2]

/-- Witness for C1 (amended): a concrete simulated transport failure in
the run step produces exactly the degraded result. -/
theorem process_message_degrades_on_fault_witness :
    process_message "gpt-4o" "u1" "hi" [("user", "earlier")] (fun _ => .ok ())
        (fun _ => .error "transport failure") =
      { response := apologyText, tool_calls := [], model := "gpt-4o",
        tokens_used := 0, error := some "transport failure" } :=
  process_message_degrades_on_fault "gpt-4o" "u1" "hi" [("user", "earlier")]
    (fun _ => .ok ()) (fun _ => .error "transport failure") "transport failure"
    (Or.inr ⟨rfl, rfl⟩)

/-- An event yielded by the streaming bridge: either a stream event
forwarded from the reasoning capability (payload abstracted), or the
error dict built in the except branch of `process_message_streaming`. -/
inductive StreamEvent where
  | delta (payload : Nat)
  | errorEvent (msg : String)
deriving DecidableEq, Repr

/-- Whether an event is the error dict of the except branch. -/
def StreamEvent.isErrorEvent : StreamEvent → Bool
  | .errorEvent _ => true
  | _ => false

/-- `process_message_streaming` from src/backend/services/agent.py,
lines 286-324, as the finite sequence of events the generator yields.
`createAgent` is the outcome of `create_task_agent`; the underlying
stream delivers the events in `events` and then either finishes or
raises a fault carrying `streamFault`.  The single try/except around the
whole body converts the fault into one final error event; nothing is
yielded after it and the generator ends. -/
def process_message_streaming (createAgent : Except String Unit)
    (events : List Nat) (streamFault : Option String) : List StreamEvent :=
  match createAgent with
  | .error e => [.errorEvent e]
  | .ok _ =>
      match streamFault with
      | none => events.map .delta
      | some e => events.map .delta ++ [.errorEvent e]

/-- Counterexample for C10: a fault whose message text is empty (as for
a Python exception with an empty `str(e)`) still produces the terminal
error event, but its message is the empty string, not a non-empty one. -/
theorem streaming_error_event_can_be_empty :
    process_message_streaming (.ok ()) [] (some "") =
      [.errorEvent ""] ∧
    ¬ ∃ m, process_message_streaming (.ok ()) [] (some "") =
        [.errorEvent m] ∧ m ≠ "" := by
  refine ⟨rfl, ?_⟩
  rintro ⟨m, hm, hne⟩
  have : ([.errorEvent ""] : List StreamEvent) = [.errorEvent m] := by
    rw [← hm]; rfl
  cases this
  exact hne rfl

/-- C10 (amended): the streaming bridge is a total function into finite
event sequences (it never raises to its consumer), and under any fault
while creating the agent or streaming events, the yielded sequence ends
with exactly one error event carrying the fault message (hence with a
non-empty message whenever the fault carries one); no event follows the
error event. -/
theorem streaming_fault_yields_single_terminal_error
    (createAgent : Except String Unit) (events : List Nat)
    (streamFault : Option String) (e : String)
    (h : createAgent = .error e ∨
         (createAgent = .ok () ∧ streamFault = some e)) :
    (process_message_streaming createAgent events streamFault).getLast?
        = some (.errorEvent e) ∧
    ((process_message_streaming createAgent events streamFault).filter
        StreamEvent.isErrorEvent).length = 1 := by
  have hdelta : ∀ evs : List Nat,
      (evs.map StreamEvent.delta).filter StreamEvent.isErrorEvent = [] := by
    intro evs
    induction evs with
    | nil => rfl
    | cons a l ih => simp [StreamEvent.isErrorEvent, ih]
  rcases h with h | ⟨h1, h2⟩
  · unfold process_message_streaming
    rw [h]
    exact ⟨rfl, rfl⟩
  · unfold process_message_streaming
    rw [h1, h2]
    constructor
    · rw [List.getLast?_append]
      rfl
    · rw [List.filter_append, hdelta events]
      rfl

/-- Witness for C10 (amended): a concrete mid-stream fault after two
delivered events ends the stream with the single error event. -/
theorem streaming_fault_witness :
    (process_message_streaming (.ok ()) [3, 4] (some "boom")).getLast?
        = some (.errorEvent "boom") ∧
    ((process_message_streaming (.ok ()) [3, 4] (some "boom")).filter
        StreamEvent.isErrorEvent).length = 1 :=
  streaming_fault_yields_single_terminal_error (.ok ()) [3, 4] (some "boom")
    "boom" (Or.inr ⟨rfl, rfl⟩)

/-- Program points of one coroutine running `get_mcp_server`
(src/backend/services/agent.py, lines 33-63) under the asyncio
cooperative model: code between awaits runs atomically, the only
suspension points being the lock acquisition and the return.
`start` is the lock-initialization block (lines 44-46, no await inside,
hence one atomic step); `wantLock` is the suspension at
`async with _mcp_server_lock` (line 48); `check` is the
`_mcp_server is None` test (line 49); `create` is the constructor call
(lines 53-61); `readRel` reads the handle and releases the lock on exit
from the with-block (line 63); `done` has returned. -/
inductive PC where
  | start
  | wantLock
  | check
  | create
  | readRel
  | done
deriving DecidableEq, Repr

/-- One caller of `get_mcp_server`: its program point and, once done,
the handle it received. -/
structure Coroutine where
  pc : PC
  handle : Option Nat
deriving DecidableEq, Repr

/-- The shared state of the connection-singleton manager plus the N
callers: whether the module-global lock has been created (line 44),
whether it is held, the module-global `_mcp_server` handle, a
construction counter (how many times the constructor on line 53 has
run; handles are numbered by it, so two constructions would yield
distinct handles), and the callers. -/
structure McpSys where
  lockInit : Bool
  lockHeld : Bool
  server : Option Nat
  ctr : Nat
  coros : List Coroutine
deriving DecidableEq, Repr

/-- Program points inside the guarded section (the lock is held from
`check` through `readRel`). -/
def critB : PC → Bool
  | .check => true
  | .create => true
  | .readRel => true
  | _ => false

/-- One scheduler step: coroutine `i` runs its next atomic block.  A
coroutine blocked on the held lock, an invalid index, or a finished
coroutine leaves the state unchanged. -/
def mcpStep (s : McpSys) (i : Nat) : McpSys :=
  match s.coros[i]? with
  | none => s
  | some c =>
      match c.pc with
      | .start =>
          { s with lockInit := true,
                   coros := s.coros.set i { c with pc := .wantLock } }
      | .wantLock =>
          if s.lockHeld then s
          else { s with lockHeld := true,
                        coros := s.coros.set i { c with pc := .check } }
      | .check =>
          let pc2 := if s.server.isSome then PC.readRel else PC.create
          { s with coros := s.coros.set i { c with pc := pc2 } }
      | .create =>
          { s with server := some s.ctr, ctr := s.ctr + 1,
                   coros := s.coros.set i { c with pc := .readRel } }
      | .readRel =>
          { s with lockHeld := false,
                   coros := s.coros.set i
                     { c with pc := .done, handle := s.server } }
      | .done => s

/-- Run a whole schedule (an arbitrary interleaving is an arbitrary
list of coroutine indices). -/
def mcpExec (sched : List Nat) (s : McpSys) : McpSys :=
  sched.foldl mcpStep s

/-- N callers about to make their first acquisition, with the manager
uninitialized. -/
def mcpInit (n : Nat) : McpSys :=
  ⟨false, false, none, 0, List.replicate n ⟨.start, none⟩⟩

theorem getElem?_set_cases {α : Type} {l : List α} {i j : Nat} {a b : α}
    (h : (l.set i a)[j]? = some b) :
    (i = j ∧ b = a) ∨ (i ≠ j ∧ l[j]? = some b) := by
  rw [List.getElem?_set] at h
  by_cases hij : i = j
  · rw [if_pos hij] at h
    by_cases hlt : i < l.length
    · rw [if_pos hlt] at h
      injection h with h
      exact Or.inl ⟨hij, h.symm⟩
    · rw [if_neg hlt] at h
      exact absurd h (by simp)
  · rw [if_neg hij] at h
    exact Or.inr ⟨hij, h⟩

theorem replicate_getElem?_eq {α : Type} {n j : Nat} {a b : α}
    (h : (List.replicate n a)[j]? = some b) : b = a := by
  rw [List.getElem?_replicate] at h
  by_cases hj : j < n
  · rw [if_pos hj] at h
    injection h with h
    exact h.symm
  · rw [if_neg hj] at h
    exact absurd h (by simp)

/-- The inductive invariant of the singleton manager: at most one
coroutine is inside the guarded section and none is when the lock is
free; a coroutine about to construct sees an unset handle; the handle
and counter move together from (unset, 0) to (handle 0, 1); coroutines
past the check see handle 0; finished coroutines hold handle 0. -/
structure McpInv (s : McpSys) : Prop where
  mutex : ∀ (i j : Nat) (ci cj : Coroutine), s.coros[i]? = some ci →
    s.coros[j]? = some cj → critB ci.pc = true → critB cj.pc = true → i = j
  lockFree : s.lockHeld = false → ∀ (j : Nat) (cj : Coroutine),
    s.coros[j]? = some cj → critB cj.pc = false
  createNone : ∀ (j : Nat) (cj : Coroutine), s.coros[j]? = some cj →
    cj.pc = PC.create → s.server = none
  serverCtr : (s.server = none ∧ s.ctr = 0) ∨ (s.server = some 0 ∧ s.ctr = 1)
  readRelServer : ∀ (j : Nat) (cj : Coroutine), s.coros[j]? = some cj →
    cj.pc = PC.readRel → s.server = some 0
  doneServer : ∀ (j : Nat) (cj : Coroutine), s.coros[j]? = some cj →
    cj.pc = PC.done → s.server = some 0
  doneHandle : ∀ (j : Nat) (cj : Coroutine), s.coros[j]? = some cj →
    cj.pc = PC.done → cj.handle = some 0

theorem mcpInit_inv (n : Nat) : McpInv (mcpInit n) := by
  refine ⟨?_, ?_, ?_, ?_, ?_, ?_, ?_⟩
  · intro i j ci cj hi _ hci _
    rw [replicate_getElem?_eq hi] at hci
    exact absurd hci (by decide)
  · intro _ j cj hj
    rw [replicate_getElem?_eq hj]
    rfl
  · intro j cj hj hpc
    rw [replicate_getElem?_eq hj] at hpc
    exact absurd hpc (by decide)
  · exact Or.inl ⟨rfl, rfl⟩
  · intro j cj hj hpc
    rw [replicate_getElem?_eq hj] at hpc
    exact absurd hpc (by decide)
  · intro j cj hj hpc
    rw [replicate_getElem?_eq hj] at hpc
    exact absurd hpc (by decide)
  · intro j cj hj hpc
    rw [replicate_getElem?_eq hj] at hpc
    exact absurd hpc (by decide)

theorem mcpStep_inv {s : McpSys} (hs : McpInv s) (i : Nat) :
    McpInv (mcpStep s i) := by
  unfold mcpStep
  cases hci : s.coros[i]? with
  | none => exact hs
  | some c =>
    obtain ⟨pc, hd⟩ := c
    cases pc with
    | start =>
      show McpInv
        { s with lockInit := true, coros := s.coros.set i ⟨PC.wantLock, hd⟩ }
      refine ⟨?_, ?_, ?_, hs.serverCtr, ?_, ?_, ?_⟩
      · intro j k cj ck hj hk hcj hck
        rcases getElem?_set_cases hj with ⟨hij, rfl⟩ | ⟨_, hj'⟩
        · exact Bool.noConfusion hcj
        · rcases getElem?_set_cases hk with ⟨hik, rfl⟩ | ⟨_, hk'⟩
          · exact Bool.noConfusion hck
          · exact hs.mutex j k cj ck hj' hk' hcj hck
      · intro hl j cj hj
        rcases getElem?_set_cases hj with ⟨hij, rfl⟩ | ⟨_, hj'⟩
        · rfl
        · exact hs.lockFree hl j cj hj'
      · intro j cj hj hpcj
        rcases getElem?_set_cases hj with ⟨hij, rfl⟩ | ⟨_, hj'⟩
        · exact PC.noConfusion hpcj
        · exact hs.createNone j cj hj' hpcj
      · intro j cj hj hpcj
        rcases getElem?_set_cases hj with ⟨hij, rfl⟩ | ⟨_, hj'⟩
        · exact PC.noConfusion hpcj
        · exact hs.readRelServer j cj hj' hpcj
      · intro j cj hj hpcj
        rcases getElem?_set_cases hj with ⟨hij, rfl⟩ | ⟨_, hj'⟩
        · exact PC.noConfusion hpcj
        · exact hs.doneServer j cj hj' hpcj
      · intro j cj hj hpcj
        rcases getElem?_set_cases hj with ⟨hij, rfl⟩ | ⟨_, hj'⟩
        · exact PC.noConfusion hpcj
        · exact hs.doneHandle j cj hj' hpcj
    | wantLock =>
      cases hl : s.lockHeld with
      | true => exact hs
      | false =>
        show McpInv
          { s with lockHeld := true, coros := s.coros.set i ⟨PC.check, hd⟩ }
        refine ⟨?_, ?_, ?_, hs.serverCtr, ?_, ?_, ?_⟩
        · intro j k cj ck hj hk hcj hck
          rcases getElem?_set_cases hj with ⟨hij, rfl⟩ | ⟨hij, hj'⟩
          · rcases getElem?_set_cases hk with ⟨hik, rfl⟩ | ⟨hik, hk'⟩
            · rw [← hij, ← hik]
            · exact absurd hck (by rw [hs.lockFree hl k ck hk']; decide)
          · exact absurd hcj (by rw [hs.lockFree hl j cj hj']; decide)
        · intro hl2
          exact Bool.noConfusion hl2
        · intro j cj hj hpcj
          rcases getElem?_set_cases hj with ⟨hij, rfl⟩ | ⟨_, hj'⟩
          · exact PC.noConfusion hpcj
          · exact hs.createNone j cj hj' hpcj
        · intro j cj hj hpcj
          rcases getElem?_set_cases hj with ⟨hij, rfl⟩ | ⟨_, hj'⟩
          · exact PC.noConfusion hpcj
          · exact hs.readRelServer j cj hj' hpcj
        · intro j cj hj hpcj
          rcases getElem?_set_cases hj with ⟨hij, rfl⟩ | ⟨_, hj'⟩
          · exact PC.noConfusion hpcj
          · exact hs.doneServer j cj hj' hpcj
        · intro j cj hj hpcj
          rcases getElem?_set_cases hj with ⟨hij, rfl⟩ | ⟨_, hj'⟩
          · exact PC.noConfusion hpcj
          · exact hs.doneHandle j cj hj' hpcj
    | check =>
      have hcrit : critB (Coroutine.mk PC.check hd).pc = true := rfl
      have hlock : s.lockHeld = true := by
        cases hl : s.lockHeld with
        | true => rfl
        | false =>
          exact Bool.noConfusion (hs.lockFree hl i ⟨PC.check, hd⟩ hci)
      cases hsrv : s.server with
      | some v =>
        have hv : v = 0 ∧ s.ctr = 1 := by
          rcases hs.serverCtr with ⟨h1, _⟩ | ⟨h1, h2⟩
          · rw [h1] at hsrv; exact Option.noConfusion hsrv
          · rw [h1] at hsrv
            injection hsrv with hsrv
            exact ⟨hsrv.symm, h2⟩
        obtain ⟨hv0, hctr1⟩ := hv
        subst hv0
        show McpInv
          { s with server := some 0,
                   coros := s.coros.set i ⟨PC.readRel, hd⟩ }
        refine ⟨?_, ?_, ?_, Or.inr ⟨rfl, hctr1⟩, ?_, ?_, ?_⟩
        · intro j k cj ck hj hk hcj hck
          rcases getElem?_set_cases hj with ⟨hij, rfl⟩ | ⟨hij, hj'⟩
          · rcases getElem?_set_cases hk with ⟨hik, rfl⟩ | ⟨hik, hk'⟩
            · rw [← hij, ← hik]
            · rw [← hij]
              exact (hs.mutex k i ck ⟨PC.check, hd⟩ hk' hci hck hcrit).symm
          · rcases getElem?_set_cases hk with ⟨hik, rfl⟩ | ⟨hik, hk'⟩
            · rw [← hik]
              exact hs.mutex j i cj ⟨PC.check, hd⟩ hj' hci hcj hcrit
            · exact hs.mutex j k cj ck hj' hk' hcj hck
        · intro hl2
          exact Bool.noConfusion (hlock.symm.trans hl2)
        · intro j cj hj hpcj
          rcases getElem?_set_cases hj with ⟨hij, rfl⟩ | ⟨_, hj'⟩
          · exact PC.noConfusion hpcj
          · exact hsrv.symm.trans (hs.createNone j cj hj' hpcj)
        · intro j cj hj hpcj
          rfl
        · intro j cj hj hpcj
          rfl
        · intro j cj hj hpcj
          rcases getElem?_set_cases hj with ⟨hij, rfl⟩ | ⟨_, hj'⟩
          · exact PC.noConfusion hpcj
          · exact hs.doneHandle j cj hj' hpcj
      | none =>
        have hctr0 : s.ctr = 0 := by
          rcases hs.serverCtr with ⟨_, h2⟩ | ⟨h1, _⟩
          · exact h2
          · rw [h1] at hsrv; exact Option.noConfusion hsrv
        show McpInv
          { s with server := none,
                   coros := s.coros.set i ⟨PC.create, hd⟩ }
        refine ⟨?_, ?_, ?_, Or.inl ⟨rfl, hctr0⟩, ?_, ?_, ?_⟩
        · intro j k cj ck hj hk hcj hck
          rcases getElem?_set_cases hj with ⟨hij, rfl⟩ | ⟨hij, hj'⟩
          · rcases getElem?_set_cases hk with ⟨hik, rfl⟩ | ⟨hik, hk'⟩
            · rw [← hij, ← hik]
            · rw [← hij]
              exact (hs.mutex k i ck ⟨PC.check, hd⟩ hk' hci hck hcrit).symm
          · rcases getElem?_set_cases hk with ⟨hik, rfl⟩ | ⟨hik, hk'⟩
            · rw [← hik]
              exact hs.mutex j i cj ⟨PC.check, hd⟩ hj' hci hcj hcrit
            · exact hs.mutex j k cj ck hj' hk' hcj hck
        · intro hl2
          exact Bool.noConfusion (hlock.symm.trans hl2)
        · intro j cj hj hpcj
          rfl
        · intro j cj hj hpcj
          rcases getElem?_set_cases hj with ⟨hij, rfl⟩ | ⟨_, hj'⟩
          · exact PC.noConfusion hpcj
          · exact hsrv.symm.trans (hs.readRelServer j cj hj' hpcj)
        · intro j cj hj hpcj
          rcases getElem?_set_cases hj with ⟨hij, rfl⟩ | ⟨_, hj'⟩
          · exact PC.noConfusion hpcj
          · exact hsrv.symm.trans (hs.doneServer j cj hj' hpcj)
        · intro j cj hj hpcj
          rcases getElem?_set_cases hj with ⟨hij, rfl⟩ | ⟨_, hj'⟩
          · exact PC.noConfusion hpcj
          · exact hs.doneHandle j cj hj' hpcj
    | create =>
      have hcrit : critB (Coroutine.mk PC.create hd).pc = true := rfl
      have hsrv : s.server = none := hs.createNone i ⟨PC.create, hd⟩ hci rfl
      have hctr : s.ctr = 0 := by
        rcases hs.serverCtr with ⟨_, h2⟩ | ⟨h1, _⟩
        · exact h2
        · rw [h1] at hsrv; exact Option.noConfusion hsrv
      show McpInv
        { s with server := some s.ctr, ctr := s.ctr + 1,
                 coros := s.coros.set i ⟨PC.readRel, hd⟩ }
      refine ⟨?_, ?_, ?_, ?_, ?_, ?_, ?_⟩
      · intro j k cj ck hj hk hcj hck
        rcases getElem?_set_cases hj with ⟨hij, rfl⟩ | ⟨hij, hj'⟩
        · rcases getElem?_set_cases hk with ⟨hik, rfl⟩ | ⟨hik, hk'⟩
          · rw [← hij, ← hik]
          · rw [← hij]
            exact (hs.mutex k i ck ⟨PC.create, hd⟩ hk' hci hck hcrit).symm
        · rcases getElem?_set_cases hk with ⟨hik, rfl⟩ | ⟨hik, hk'⟩
          · rw [← hik]
            exact hs.mutex j i cj ⟨PC.create, hd⟩ hj' hci hcj hcrit
          · exact hs.mutex j k cj ck hj' hk' hcj hck
      · intro hl2
        have hlock : s.lockHeld = true := by
          cases hl : s.lockHeld with
          | true => rfl
          | false =>
            exact Bool.noConfusion (hs.lockFree hl i ⟨PC.create, hd⟩ hci)
        exact Bool.noConfusion (hlock.symm.trans hl2)
      · intro j cj hj hpcj
        rcases getElem?_set_cases hj with ⟨hij, rfl⟩ | ⟨hij, hj'⟩
        · exact PC.noConfusion hpcj
        · exact absurd
            (hs.mutex j i cj ⟨PC.create, hd⟩ hj' hci (by rw [hpcj]; rfl) hcrit)
            (fun e => hij e.symm)
      · rw [hctr]
        exact Or.inr ⟨rfl, rfl⟩
      · intro j cj hj hpcj
        rw [hctr]
      · intro j cj hj hpcj
        rw [hctr]
      · intro j cj hj hpcj
        rcases getElem?_set_cases hj with ⟨hij, rfl⟩ | ⟨_, hj'⟩
        · exact PC.noConfusion hpcj
        · exact hs.doneHandle j cj hj' hpcj
    | readRel =>
      have hcrit : critB (Coroutine.mk PC.readRel hd).pc = true := rfl
      have hs0 : s.server = some 0 :=
        hs.readRelServer i ⟨PC.readRel, hd⟩ hci rfl
      show McpInv
        { s with lockHeld := false,
                 coros := s.coros.set i ⟨PC.done, s.server⟩ }
      refine ⟨?_, ?_, ?_, hs.serverCtr, ?_, ?_, ?_⟩
      · intro j k cj ck hj hk hcj hck
        rcases getElem?_set_cases hj with ⟨hij, rfl⟩ | ⟨hij, hj'⟩
        · exact Bool.noConfusion hcj
        · rcases getElem?_set_cases hk with ⟨hik, rfl⟩ | ⟨hik, hk'⟩
          · exact Bool.noConfusion hck
          · exact hs.mutex j k cj ck hj' hk' hcj hck
      · intro _ j cj hj
        rcases getElem?_set_cases hj with ⟨hij, rfl⟩ | ⟨hij, hj'⟩
        · rfl
        · cases hcrit2 : critB cj.pc with
          | false => rfl
          | true =>
            exact absurd
              (hs.mutex j i cj ⟨PC.readRel, hd⟩ hj' hci hcrit2 hcrit)
              (fun e => hij e.symm)
      · intro j cj hj hpcj
        rcases getElem?_set_cases hj with ⟨hij, rfl⟩ | ⟨_, hj'⟩
        · exact PC.noConfusion hpcj
        · exact hs.createNone j cj hj' hpcj
      · intro j cj hj hpcj
        rcases getElem?_set_cases hj with ⟨hij, rfl⟩ | ⟨_, hj'⟩
        · exact PC.noConfusion hpcj
        · exact hs.readRelServer j cj hj' hpcj
      · intro j cj hj hpcj
        rcases getElem?_set_cases hj with ⟨hij, rfl⟩ | ⟨_, hj'⟩
        · exact hs0
        · exact hs.doneServer j cj hj' hpcj
      · intro j cj hj hpcj
        rcases getElem?_set_cases hj with ⟨hij, rfl⟩ | ⟨_, hj'⟩
        · exact hs0
        · exact hs.doneHandle j cj hj' hpcj
    | done => exact hs

theorem mcpExec_inv {s : McpSys} (hs : McpInv s) (sched : List Nat) :
    McpInv (mcpExec sched s) := by
  induction sched generalizing s with
  | nil => exact hs
  | cons a l ih => exact ih (mcpStep_inv hs a)

theorem mcpStep_coros_length (s : McpSys) (i : Nat) :
    (mcpStep s i).coros.length = s.coros.length := by
  unfold mcpStep
  cases hci : s.coros[i]? with
  | none => rfl
  | some c =>
    obtain ⟨pc, hd⟩ := c
    cases pc with
    | start => exact List.length_set s.coros i _
    | wantLock =>
      cases s.lockHeld with
      | true => rfl
      | false => exact List.length_set s.coros i _
    | check => exact List.length_set s.coros i _
    | create => exact List.length_set s.coros i _
    | readRel => exact List.length_set s.coros i _
    | done => rfl

theorem mcpExec_coros_length (sched : List Nat) (s : McpSys) :
    (mcpExec sched s).coros.length = s.coros.length := by
  induction sched generalizing s with
  | nil => rfl
  | cons a l ih => exact (ih (mcpStep s a)).trans (mcpStep_coros_length s a)

theorem mcpStep_server_stable {s : McpSys} (hs : McpInv s) {h : Nat}
    (hsrv : s.server = some h) (i : Nat) : (mcpStep s i).server = some h := by
  unfold mcpStep
  cases hci : s.coros[i]? with
  | none => exact hsrv
  | some c =>
    obtain ⟨pc, hd⟩ := c
    cases pc with
    | start => exact hsrv
    | wantLock =>
      cases s.lockHeld with
      | true => exact hsrv
      | false => exact hsrv
    | check => exact hsrv
    | create =>
      have hnone := hs.createNone i ⟨PC.create, hd⟩ hci rfl
      rw [hnone] at hsrv
      cases hsrv
    | readRel => exact hsrv
    | done => exact hsrv

theorem mcpExec_server_stable {s : McpSys} (hs : McpInv s) {h : Nat}
    (hsrv : s.server = some h) (sched : List Nat) :
    (mcpExec sched s).server = some h := by
  induction sched generalizing s with
  | nil => exact hsrv
  | cons a l ih => exact ih (mcpStep_inv hs a) (mcpStep_server_stable hs hsrv a)

theorem mem_to_getElem? {α : Type} {l : List α} {c : α} (h : c ∈ l) :
    ∃ j : Nat, l[j]? = some c := by
  obtain ⟨n, hn, hget⟩ := List.mem_iff_getElem.mp h
  exact ⟨n, by rw [List.getElem?_eq_getElem hn, hget]⟩

/-- C4: under every interleaving of N concurrent first-time callers of
`get_mcp_server` that runs all of them to completion, the construction
counter is exactly 1 and every caller holds the same handle (handle 0,
the one construction): the lock mutually excludes the check-then-create
sequence. -/
theorem concurrent_first_acquisition_constructs_once (n : Nat)
    (sched : List Nat) (hn : 0 < n)
    (hdone : ∀ c ∈ (mcpExec sched (mcpInit n)).coros, c.pc = PC.done) :
    (mcpExec sched (mcpInit n)).ctr = 1 ∧
    ∀ c ∈ (mcpExec sched (mcpInit n)).coros, c.handle = some 0 := by
  have inv := mcpExec_inv (mcpInit_inv n) sched
  have hlen : (mcpExec sched (mcpInit n)).coros.length = n := by
    rw [mcpExec_coros_length]
    exact List.length_replicate n _
  have hne : (mcpExec sched (mcpInit n)).coros ≠ [] := by
    rw [← List.length_pos, hlen]
    exact hn
  obtain ⟨c0, hc0mem⟩ := List.exists_mem_of_ne_nil _ hne
  obtain ⟨j0, hj0⟩ := mem_to_getElem? hc0mem
  have hsrv := inv.doneServer j0 c0 hj0 (hdone c0 hc0mem)
  constructor
  · rcases inv.serverCtr with ⟨h1, _⟩ | ⟨_, h2⟩
    · rw [h1] at hsrv; cases hsrv
    · exact h2
  · intro c hc
    obtain ⟨j, hj⟩ := mem_to_getElem? hc
    exact inv.doneHandle j c hj (hdone c hc)

/-- Witness for C4: two callers interleaved sequentially; the counter
ends at 1. -/
theorem concurrent_first_acquisition_constructs_once_witness :
    (mcpExec [0, 0, 0, 0, 0, 1, 1, 1, 1] (mcpInit 2)).ctr = 1 :=
  (concurrent_first_acquisition_constructs_once 2 [0, 0, 0, 0, 0, 1, 1, 1, 1]
    (by decide) (by decide)).1

/-- C7: once the singleton is constructed (the stored handle is set),
every further schedule leaves the same handle in place, the construction
counter stays 1 (the connection is never recreated), and every caller
that completes thereafter receives that same handle. -/
theorem singleton_reused_once_ready (n : Nat) (sched sched' : List Nat)
    (h : Nat)
    (hready : (mcpExec sched (mcpInit n)).server = some h) :
    (mcpExec sched' (mcpExec sched (mcpInit n))).server = some h ∧
    (mcpExec sched' (mcpExec sched (mcpInit n))).ctr = 1 ∧
    ∀ c ∈ (mcpExec sched' (mcpExec sched (mcpInit n))).coros,
      c.pc = PC.done → c.handle = some h := by
  have inv1 := mcpExec_inv (mcpInit_inv n) sched
  have h0 : h = 0 := by
    rcases inv1.serverCtr with ⟨h1, _⟩ | ⟨h1, _⟩
    · rw [h1] at hready; cases hready
    · rw [h1] at hready; injection hready with e; exact e.symm
  subst h0
  have inv2 := mcpExec_inv inv1 sched'
  have hstable := mcpExec_server_stable inv1 hready sched'
  refine ⟨hstable, ?_, ?_⟩
  · rcases inv2.serverCtr with ⟨h1, _⟩ | ⟨_, h2⟩
    · rw [h1] at hstable; cases hstable
    · exact h2
  · intro c hc hdc
    obtain ⟨j, hj⟩ := mem_to_getElem? hc
    exact inv2.doneHandle j c hj hdc

/-- Witness for C7: after the first caller completes, a second caller
runs; the stored handle is unchanged and the counter is still 1. -/
theorem singleton_reused_once_ready_witness :
    (mcpExec [1, 1, 1, 1] (mcpExec [0, 0, 0, 0, 0] (mcpInit 2))).server
        = some 0 ∧
    (mcpExec [1, 1, 1, 1] (mcpExec [0, 0, 0, 0, 0] (mcpInit 2))).ctr = 1 := by
  have h := singleton_reused_once_ready 2 [0, 0, 0, 0, 0] [1, 1, 1, 1] 0
    (by decide)
  exact ⟨h.1, h.2.1⟩

end TaskApp
